import Mathlib

/-!
Verification of the logdog TUI (internal/tui/model.go) against its
natural-language specification.

The Go source is shallowly embedded: the mutable `Model` struct becomes a
Lean structure, `Update` and its handlers become pure functions threading an
explicit filesystem value, and machine integers become `Nat`/`Int` (all the
quantities involved — cursors, lengths, day counts — are small and
non-negative in the source, with the one signed quantity, `getMaxCursor`,
kept as `Int` so that `len(x) - 1` at `len(x) = 0` is `-1` exactly as in Go).

Calls into the Go standard library and into the missing `GoLanguage`
implementation are modelled explicitly; each such definition carries a doc
comment saying what it stands for.
-/

namespace Logdog

/-- Split a character list on `/`, accumulating the current component. -/
def splitSlashAux : List Char → List Char → List (List Char)
  | [], acc => [acc.reverse]
  | c :: cs, acc =>
    if c = '/' then acc.reverse :: splitSlashAux cs []
    else splitSlashAux cs (c :: acc)

/-- Go `filepath.Base`: last non-empty path component; "." for the empty
string, "/" for an all-slash path. -/
def baseName (p : String) : String :=
  if p = "" then "."
  else
    match ((splitSlashAux p.toList []).filter (fun s => s ≠ [])).getLast? with
    | some b => String.mk b
    | none => "/"

/-- Modelled from the Go standard library: `strings.HasPrefix`, over the
character lists so that it evaluates by kernel reduction. -/
def strHasPrefix (prefixStr s : String) : Bool :=
  prefixStr.toList.isPrefixOf s.toList

/-- Modelled from the Go standard library: `filepath.Ext(p) == ".json"`,
equivalent to the path ending in `.json`. -/
def strHasSuffix (suffixStr s : String) : Bool :=
  suffixStr.toList.isSuffixOf s.toList

/-- The ASCII whitespace set trimmed by Go `strings.TrimSpace` (the Unicode
additions play no role in this code's inputs). -/
def isSpaceChar (c : Char) : Bool :=
  c = ' ' ∨ c = '\t' ∨ c = '\n' ∨ c = '\r' ∨ c = '\x0b' ∨ c = '\x0c'

/-- Modelled from the Go standard library: `strings.TrimSpace`. -/
def goTrimSpace (s : String) : String :=
  String.mk (((s.toList.dropWhile isSpaceChar).reverse.dropWhile isSpaceChar).reverse)

/-! ### Time: RFC3339 parsing and the "Jan 02 15:04:05" layout

`formatLogEntry` calls `time.Parse(time.RFC3339, ts)` and
`t.Format("Jan 02 15:04:05")`. These stdlib calls are modelled here: an
RFC3339 timestamp `YYYY-MM-DDTHH:MM:SS[.frac](Z|±HH:MM)` is parsed into its
wall-clock components (Go formats the parsed wall clock without zone
conversion), validating ranges the way `time.Parse` does. -/

structure GoTime where
  year : Nat
  month : Nat
  day : Nat
  hour : Nat
  minute : Nat
  second : Nat
deriving DecidableEq, Repr

def digitVal (c : Char) : Option Nat :=
  if c.isDigit then some (c.toNat - 48) else none

/-- Read exactly `n` decimal digits, returning the value and the rest. -/
def readDigits : Nat → Nat → List Char → Option (Nat × List Char)
  | 0, acc, cs => some (acc, cs)
  | n + 1, acc, c :: cs =>
    match digitVal c with
    | some d => readDigits n (acc * 10 + d) cs
    | none => none
  | _ + 1, _, [] => none

def expectChar (c : Char) : List Char → Option (List Char)
  | c2 :: cs => if c2 = c then some cs else none
  | [] => none

def isLeapYear (y : Nat) : Bool :=
  (y % 4 = 0 && decide (y % 100 ≠ 0)) || y % 400 = 0

def daysInMonth (y m : Nat) : Nat :=
  if m = 2 then (if isLeapYear y then 29 else 28)
  else if m = 4 ∨ m = 6 ∨ m = 9 ∨ m = 11 then 30
  else 31

/-- Consume an optional fractional-seconds part `.digit+`. -/
def dropFrac : List Char → Option (List Char)
  | '.' :: cs =>
    match cs with
    | c :: _ => if c.isDigit then some (cs.dropWhile Char.isDigit) else none
    | [] => none
  | cs => some cs

/-- Check the RFC3339 zone suffix: `Z` or `±HH:MM`, consuming the rest. -/
def validOffset : List Char → Bool
  | ['Z'] => true
  | c :: cs =>
    if c = '+' ∨ c = '-' then
      match readDigits 2 0 cs with
      | some (h, cs2) =>
        match expectChar ':' cs2 with
        | some cs3 =>
          match readDigits 2 0 cs3 with
          | some (mi, []) => decide (h ≤ 23) && decide (mi ≤ 59)
          | _ => false
        | none => false
      | none => false
    else false
  | [] => false

/-- Modelled from the Go standard library: `time.Parse(time.RFC3339, s)`,
yielding the parsed wall-clock components. -/
def parseRFC3339 (s : String) : Option GoTime := do
  let (y, cs) ← readDigits 4 0 s.toList
  let cs ← expectChar '-' cs
  let (mo, cs) ← readDigits 2 0 cs
  let cs ← expectChar '-' cs
  let (d, cs) ← readDigits 2 0 cs
  let cs ← expectChar 'T' cs
  let (h, cs) ← readDigits 2 0 cs
  let cs ← expectChar ':' cs
  let (mi, cs) ← readDigits 2 0 cs
  let cs ← expectChar ':' cs
  let (sec, cs) ← readDigits 2 0 cs
  let cs ← dropFrac cs
  if validOffset cs = true ∧ 1 ≤ mo ∧ mo ≤ 12 ∧ 1 ≤ d ∧ d ≤ daysInMonth y mo
      ∧ h ≤ 23 ∧ mi ≤ 59 ∧ sec ≤ 59 then
    some ⟨y, mo, d, h, mi, sec⟩
  else
    none

def monthAbbrev : Nat → String
  | 1 => "Jan"
  | 2 => "Feb"
  | 3 => "Mar"
  | 4 => "Apr"
  | 5 => "May"
  | 6 => "Jun"
  | 7 => "Jul"
  | 8 => "Aug"
  | 9 => "Sep"
  | 10 => "Oct"
  | 11 => "Nov"
  | 12 => "Dec"
  | _ => "???"

def pad2 (n : Nat) : String :=
  if n < 10 then "0" ++ toString n else toString n

/-- Modelled from the Go standard library: `t.Format("Jan 02 15:04:05")`. -/
def goFormatJan (t : GoTime) : String :=
  monthAbbrev t.month ++ " " ++ pad2 t.day ++ " " ++
    pad2 t.hour ++ ":" ++ pad2 t.minute ++ ":" ++ pad2 t.second

/-! ### Log records and `formatLogEntry`

A parsed log line (Go: `map[string]any` from `json.Unmarshal`) is embedded as
the view `formatLogEntry` extracts from it: the `timestamp`/`level`/`message`
string fields (Go type assertions yield `""` when a field is absent or not a
string) and the `data` object as a list of key/value pairs, the value already
rendered the way `fmt.Sprintf("%v", v)` renders it (JSON `1` unmarshals to
`float64(1)` and renders as `"1"`). Go map iteration order is arbitrary; the
list fixes one order per entry. Styling (`lipgloss.Render`, which only wraps
text in colour escapes, and the level-colour switch) is out of the spec's
scope and modelled as the identity on the rendered text. -/

structure LogEntry where
  timestamp : String
  level : String
  message : String
  data : List (String × String)
deriving DecidableEq, Repr

/-- Embedding of `Model.formatLogEntry` (part_001 lines 305-367). -/
def formatLogEntry (e : LogEntry) : String :=
  let ts :=
    if e.timestamp ≠ "" then
      (match parseRFC3339 e.timestamp with
        | some t => goFormatJan t
        | none => e.timestamp) ++ " "
    else ""
  let lv := if e.level ≠ "" then "[" ++ e.level ++ "] " else ""
  let ms := if e.message ≠ "" then e.message else ""
  let dt :=
    if e.data.length > 0 then
      " " ++ "\x7b" ++
        String.intercalate ", " (e.data.map (fun kv => kv.1 ++ "=" ++ kv.2)) ++
        "\x7d"
    else ""
  ts ++ lv ++ ms ++ dt

/-! ### The filesystem model

The program only observes the filesystem through: `os.Stat` (modification
time), reading a file's lines, `os.Remove`, directory scans for log files
(`GetLogPaths`, `getLogFilesForProject`) and the one-shot directory listing
`scanGlobalProjects`. A filesystem value is therefore a finite association
of paths to file data plus the list of directory names under `~/logdog`
(recorded separately, since directories as such are otherwise invisible to
the program). Events may also carry a per-event wall-clock `now`, standing
for `time.Now()`. -/

structure FileData where
  mtime : Int
  lines : List String
deriving DecidableEq, Repr

structure FS where
  files : List (String × FileData)
  globalDirs : List String
deriving DecidableEq, Repr

/-- Modelled from the Go standard library: `os.Stat` (and `os.Open`), which
succeed exactly on present paths. -/
def FS.statFile (fs : FS) (p : String) : Option FileData :=
  (fs.files.find? (fun e => e.1 = p)).map (fun e => e.2)

def FS.removeAll (fs : FS) (p : String) : FS :=
  { fs with files := fs.files.filter (fun e => ¬ (e.1 = p)) }

/-- Modelled from the Go standard library: `os.Remove`, which fails exactly
when the path is absent. -/
def FS.remove (fs : FS) (p : String) : Option FS :=
  if (fs.statFile p).isSome then some (fs.removeAll p) else none

/-- Modelled from the spec: `GoLanguage.GetLogPaths` (its file is not in the
provided sources) — "ordered sequence of file paths matching that language's
expected output directory and file naming convention", i.e. the `.json`
files under `<projectPath>/logdog/logs/`, in directory-read order (here: the
order of `fs.files`). -/
def getLogPaths (fs : FS) (projectPath : String) : List String :=
  (fs.files.map (fun e => e.1)).filter (fun p =>
    strHasPrefix (projectPath ++ "/logdog/logs/") p && strHasSuffix ".json" p)

/-- Embedding of `getLogFilesForProject` (part_001 lines 634-654): the
`filepath.Walk` over `~/logdog/<projectName>` collecting `.json` files. -/
def getLogFilesForProject (fs : FS) (homeDir projectName : String) : List String :=
  (fs.files.map (fun e => e.1)).filter (fun p =>
    strHasPrefix (homeDir ++ "/logdog/" ++ projectName ++ "/") p &&
      strHasSuffix ".json" p)

/-- Embedding of `scanGlobalProjects` (part_001 lines 48-69): the directory
names under `~/logdog`, held directly in the filesystem model. -/
def scanGlobalProjects (fs : FS) : List String :=
  fs.globalDirs

/-! ### The UI model -/

inductive Screen
  | main
  | install
  | logs
  | logView
  | settings
  | globalProjects
deriving DecidableEq, Repr

/-- Embedding of the `Model` struct (part_001 lines 29-46). The ambient
working directory and home directory (Go: `os.Getwd`, `user.Current`) and
the language-detection outcome (`m.language != nil`) are carried as fields;
`projectPath` is in the source, the other two are implicit there. The
`config` field only feeds `Install`, which is modelled below. -/
structure Model where
  screen : Screen
  projectPath : String
  homeDir : String
  hasLanguage : Bool
  logFiles : List String
  cursor : Nat
  message : String
  confirmingDelete : Bool
  confirmingClear : Bool
  deleteFileIndex : Nat
  logContent : String
  globalProjects : List String
  selectedProject : String
  retentionDays : Nat
deriving DecidableEq, Repr

/-- Embedding of `NewModel` (part_001 lines 71-94). -/
def NewModel (fs : FS) (wd homeDir : String) (hasLang : Bool) : Model where
  screen := .main
  projectPath := wd
  homeDir := homeDir
  hasLanguage := hasLang
  logFiles := if hasLang then getLogPaths fs wd else []
  cursor := 0
  message := ""
  confirmingDelete := false
  confirmingClear := false
  deleteFileIndex := 0
  logContent := ""
  globalProjects := scanGlobalProjects fs
  selectedProject := ""
  retentionDays := 7

/-- Embedding of `getMaxCursor` (part_001 lines 686-697); kept as `Int`
because Go's `len(x) - 1` is `-1` on an empty slice. -/
def Model.getMaxCursor (m : Model) : Int :=
  match m.screen with
  | .main => 4
  | .logs => (m.logFiles.length : Int) - 1
  | .globalProjects => (m.globalProjects.length : Int) - 1
  | _ => 0

/-- Go `time.Now().AddDate(0, 0, -retentionDays)` on an epoch-seconds
clock: `retentionDays` days before `now`. -/
def cutoffDate (now : Int) (retentionDays : Nat) : Int :=
  now - 86400 * retentionDays

/-- The selection loop of `handleClearOldLogs` (part_001 lines 205-211): the
files whose stat succeeds and whose modification time is strictly before the
cutoff; a failed stat skips the file. -/
def oldLogsIn (fs : FS) (cutoff : Int) (files : List String) : List String :=
  files.filter (fun p =>
    match fs.statFile p with
    | some info => decide (info.mtime < cutoff)
    | none => false)

/-- Embedding of `handleClearOldLogs` (part_001 lines 200-221). -/
def Model.handleClearOldLogs (m : Model) (fs : FS) (now : Int) : Model :=
  let old := oldLogsIn fs (cutoffDate now m.retentionDays) m.logFiles
  if old.length = 0 then
    { m with message :=
        "No log files older than " ++ toString m.retentionDays ++ " days found" }
  else
    { m with
      message := "Clear " ++ toString old.length ++ " log files older than " ++
        toString m.retentionDays ++
        " days? Press \x27y\x27 to confirm, any other key to cancel"
      confirmingClear := true }

/-- One iteration of the deletion loop of `confirmClearOldLogs` (part_001
lines 228-238), folding (filesystem, deleted count, error list) over the
listed files. -/
def clearStep (cutoff : Int) (acc : FS × Nat × List String) (logFile : String) :
    FS × Nat × List String :=
  match acc.1.statFile logFile with
  | some info =>
    if info.mtime < cutoff then
      match acc.1.remove logFile with
      | some fs2 => (fs2, acc.2.1 + 1, acc.2.2)
      | none => (acc.1, acc.2.1, acc.2.2 ++ ["Failed to delete " ++ baseName logFile])
    else acc
  | none => acc

/-- Embedding of `confirmClearOldLogs` (part_001 lines 223-260). -/
def Model.confirmClearOldLogs (m : Model) (fs : FS) (now : Int) : Model × FS :=
  let r := m.logFiles.foldl (clearStep (cutoffDate now m.retentionDays)) (fs, 0, [])
  let logFiles2 := if m.hasLanguage then getLogPaths r.1 m.projectPath else m.logFiles
  let cursor2 :=
    if m.cursor ≥ logFiles2.length ∧ logFiles2.length > 0 then logFiles2.length - 1
    else if logFiles2.length = 0 then 0
    else m.cursor
  let msg :=
    if r.2.2.length > 0 then
      "✅ Deleted " ++ toString r.2.1 ++ " files. ❌ Errors: " ++
        String.intercalate "; " r.2.2
    else "✅ Cleared " ++ toString r.2.1 ++ " old log files"
  ({ m with logFiles := logFiles2, cursor := cursor2, message := msg,
            confirmingClear := false }, r.1)

/-- Embedding of `confirmDelete` (part_001 lines 379-398). Note the cursor
is clamped only when the refreshed list is non-empty, and the refresh always
re-queries the local project (and only when a language was detected). -/
def Model.confirmDelete (m : Model) (fs : FS) : Model × FS :=
  if h : m.deleteFileIndex < m.logFiles.length then
    let filePath := m.logFiles.get ⟨m.deleteFileIndex, h⟩
    match fs.remove filePath with
    | none =>
      ({ m with message := "❌ Failed to delete: file does not exist",
                confirmingDelete := false }, fs)
    | some fs2 =>
      let logFiles2 := if m.hasLanguage then getLogPaths fs2 m.projectPath else m.logFiles
      let cursor2 :=
        if m.cursor ≥ logFiles2.length ∧ logFiles2.length > 0 then logFiles2.length - 1
        else m.cursor
      ({ m with message := "✅ Deleted " ++ baseName filePath,
                logFiles := logFiles2, cursor := cursor2,
                confirmingDelete := false }, fs2)
  else
    ({ m with confirmingDelete := false }, fs)

/-- The per-line formatting pass of `viewLogContent` (part_001 lines
282-296): blank lines are skipped, lines parsing as a JSON object are
rendered by `formatLogEntry`, all others pass through trimmed. The JSON
parser (`json.Unmarshal` into `map[string]any`, then the field extraction)
is a stdlib collaborator, abstracted as the `parse` argument. -/
def formatLogLines (parse : String → Option LogEntry) : List String → String
  | [] => ""
  | raw :: rest =>
    (let line := goTrimSpace raw
     if line = "" then ""
     else
       match parse line with
       | some e => formatLogEntry e ++ "\n"
       | none => line ++ "\n") ++ formatLogLines parse rest

/-- Embedding of `viewLogContent` (part_001 lines 269-303); only called with
`cursor < len(logFiles)` (guarded by `handleViewLog`). -/
def Model.viewLogContent (m : Model) (fs : FS)
    (parse : String → Option LogEntry) : Model :=
  let filePath := m.logFiles.getD m.cursor ""
  match fs.statFile filePath with
  | none => { m with message := "❌ Error reading log: open failed" }
  | some info =>
    { m with screen := .logView, logContent := formatLogLines parse info.lines,
             cursor := 0 }

/-- Embedding of `handleViewLog` (part_001 lines 262-267). -/
def Model.handleViewLog (m : Model) (fs : FS)
    (parse : String → Option LogEntry) : Model :=
  if m.cursor < m.logFiles.length then m.viewLogContent fs parse else m

/-- Embedding of `handleDeleteLog` (part_001 lines 369-377). -/
def Model.handleDeleteLog (m : Model) : Model :=
  if m.cursor < m.logFiles.length then
    { m with
      message := "Delete " ++ baseName (m.logFiles.getD m.cursor "") ++
        "? Press \x27y\x27 to confirm, any other key to cancel"
      confirmingDelete := true
      deleteFileIndex := m.cursor }
  else m

/-- Embedding of `handleEnter` (part_001 lines 656-684). On Main, cursor 4
(`Quit`) returns the model unchanged alongside the quit command. -/
def Model.handleEnter (m : Model) (fs : FS) : Model :=
  match m.screen with
  | .main =>
    if m.cursor = 0 then { m with screen := .install, cursor := 0, message := "" }
    else if m.cursor = 1 then { m with screen := .logs, cursor := 0, message := "" }
    else if m.cursor = 2 then { m with screen := .globalProjects, cursor := 0, message := "" }
    else if m.cursor = 3 then { m with screen := .settings, cursor := 0, message := "" }
    else if m.cursor = 4 then m
    else { m with cursor := 0, message := "" }
  | .globalProjects =>
    if h : m.cursor < m.globalProjects.length then
      let p := m.globalProjects.get ⟨m.cursor, h⟩
      { m with selectedProject := p,
               logFiles := getLogFilesForProject fs m.homeDir p,
               screen := .logs, cursor := 0, message := "" }
    else m
  | _ => m

/-- The `enter` branch on the Install screen (part_001 lines 122-136).
`language.Install` is modelled from the spec (the `GoLanguage` file is not
in the provided sources): it writes the logger package and output directory
— neither of which is an existing log file — and succeeds, after which the
log list is re-queried. -/
def Model.installEnter (m : Model) (fs : FS) : Model :=
  if m.hasLanguage then
    { m with
      message := "✅ Logger installed successfully! Check internal/logdog/logger.go"
      logFiles := getLogPaths fs m.projectPath
      screen := .main, cursor := 0 }
  else
    { m with message := "❌ No supported language detected",
             screen := .main, cursor := 0 }

/-! ### The key dispatch -/

/-- The cases of the `switch msg.String()` in `Update` (part_001 lines
103-195); `other` is the `default` branch. -/
inductive KeyAction
  | quit
  | up
  | down
  | enter
  | view
  | del
  | clearOld
  | confirm
  | inc
  | dec
  | esc
  | other
deriving DecidableEq, Repr

/-- The dispatch of `Update`'s `switch` on the key string. -/
def decodeKey (s : String) : KeyAction :=
  if s = "q" ∨ s = "ctrl+c" then .quit
  else if s = "up" ∨ s = "k" then .up
  else if s = "down" ∨ s = "j" then .down
  else if s = "enter" then .enter
  else if s = "v" then .view
  else if s = "d" then .del
  else if s = "c" then .clearOld
  else if s = "y" then .confirm
  else if s = "+" ∨ s = "=" then .inc
  else if s = "-" ∨ s = "_" then .dec
  else if s = "esc" then .esc
  else .other

/-- The body of each `switch` case of `Update` (part_001 lines 100-198),
threading the filesystem; `quit` returns the model unchanged next to
`tea.Quit`. -/
def applyKey (parse : String → Option LogEntry) (now : Int) (fs : FS)
    (m : Model) : KeyAction → Model × FS
  | .quit => (m, fs)
  | .up =>
    if ¬ m.confirmingDelete ∧ ¬ m.confirmingClear then
      ({ m with cursor := if m.cursor > 0 then m.cursor - 1 else m.cursor,
                message := "" }, fs)
    else (m, fs)
  | .down =>
    if ¬ m.confirmingDelete ∧ ¬ m.confirmingClear then
      ({ m with cursor := if (m.cursor : Int) < m.getMaxCursor then m.cursor + 1
                          else m.cursor,
                message := "" }, fs)
    else (m, fs)
  | .enter =>
    if ¬ m.confirmingDelete ∧ ¬ m.confirmingClear then
      if m.screen = .install then (m.installEnter fs, fs)
      else (m.handleEnter fs, fs)
    else (m, fs)
  | .view =>
    if m.screen = .logs ∧ m.logFiles.length > 0 ∧
        ¬ m.confirmingDelete ∧ ¬ m.confirmingClear then
      (m.handleViewLog fs parse, fs)
    else (m, fs)
  | .del =>
    if m.screen = .logs ∧ m.logFiles.length > 0 ∧
        ¬ m.confirmingDelete ∧ ¬ m.confirmingClear then
      (m.handleDeleteLog, fs)
    else (m, fs)
  | .clearOld =>
    if m.screen = .logs ∧ m.logFiles.length > 0 ∧
        ¬ m.confirmingDelete ∧ ¬ m.confirmingClear then
      (m.handleClearOldLogs fs now, fs)
    else (m, fs)
  | .confirm =>
    if m.confirmingDelete then m.confirmDelete fs
    else if m.confirmingClear then m.confirmClearOldLogs fs now
    else (m, fs)
  | .inc =>
    if m.screen = .settings ∧ ¬ m.confirmingDelete ∧ ¬ m.confirmingClear then
      if m.retentionDays < 365 then
        ({ m with retentionDays := m.retentionDays + 1,
                  message := "Retention set to " ++ toString (m.retentionDays + 1) ++
                    " days" }, fs)
      else (m, fs)
    else (m, fs)
  | .dec =>
    if m.screen = .settings ∧ ¬ m.confirmingDelete ∧ ¬ m.confirmingClear then
      if m.retentionDays > 1 then
        ({ m with retentionDays := m.retentionDays - 1,
                  message := "Retention set to " ++ toString (m.retentionDays - 1) ++
                    " days" }, fs)
      else (m, fs)
    else (m, fs)
  | .esc =>
    if m.confirmingDelete ∨ m.confirmingClear then
      ({ m with confirmingDelete := false, confirmingClear := false,
                message := "" }, fs)
    else
      ({ m with screen := .main, cursor := 0, message := "",
                confirmingDelete := false, confirmingClear := false,
                logContent := "", selectedProject := "" }, fs)
  | .other =>
    if m.confirmingDelete ∨ m.confirmingClear then
      ({ m with confirmingDelete := false, confirmingClear := false,
                message := "" }, fs)
    else ({ m with message := "" }, fs)

/-- Embedding of `Update` (part_001 lines 100-198) for one key event,
carrying the event's wall-clock reading. -/
def update (parse : String → Option LogEntry) (now : Int) (fs : FS)
    (m : Model) (key : String) : Model × FS :=
  applyKey parse now fs m (decodeKey key)

/-- Run a sequence of key events, each with its wall-clock reading. -/
def runKeys (parse : String → Option LogEntry) :
    Model × FS → List (String × Int) → Model × FS
  | st, [] => st
  | st, ev :: evs => runKeys parse (update parse ev.2 st.2 st.1 ev.1) evs

/-- The states reachable from some initial `NewModel` state by key events. -/
inductive Reachable (parse : String → Option LogEntry) : Model → FS → Prop
  | init (fs : FS) (wd homeDir : String) (hasLang : Bool) :
      Reachable parse (NewModel fs wd homeDir hasLang) fs
  | step {m : Model} {fs : FS} (key : String) (now : Int) :
      Reachable parse m fs →
      Reachable parse (update parse now fs m key).1 (update parse now fs m key).2

/-- The filename shown in the LogView header, from `renderLogView`
(part_001 lines 425-434): the basename of `logFiles[deleteFileIndex]`
when that index is in bounds, empty otherwise (styling is identity). -/
def Model.renderLogViewFilename (m : Model) : String :=
  if h : m.deleteFileIndex < m.logFiles.length then
    baseName (m.logFiles.get ⟨m.deleteFileIndex, h⟩)
  else ""

/-- The LogView header line of `renderLogView`. -/
def Model.renderLogViewHeader (m : Model) : String :=
  "📋 Viewing: " ++ m.renderLogViewFilename

/-- The spec's `maxCursor`, stated from the spec's words for comparison with
the code: 4 for Main, `len(logFiles)-1` for LogList,
`len(globalProjects)-1` for GlobalProjectSelect, 0 for other screens, and 0
when the underlying list is empty (`Nat` subtraction gives exactly this). -/
def specMaxCursor (m : Model) : Nat :=
  match m.screen with
  | .main => 4
  | .logs => m.logFiles.length - 1
  | .globalProjects => m.globalProjects.length - 1
  | _ => 0

/-! ### Basic lemmas about the handlers -/

theorem mem_getLogPaths {fs : FS} {wd p : String} (h : p ∈ getLogPaths fs wd) :
    p ∈ fs.files.map (fun e => e.1) := by
  unfold getLogPaths at h
  exact (List.mem_filter.mp h).1

theorem not_mem_removeAll (fs : FS) (p : String) :
    p ∉ (fs.removeAll p).files.map (fun e => e.1) := by
  simp only [FS.removeAll, List.mem_map, List.mem_filter]
  rintro ⟨e, ⟨-, he⟩, rfl⟩
  simp at he

theorem remove_eq_removeAll {fs fs2 : FS} {p : String} (h : fs.remove p = some fs2) :
    fs2 = fs.removeAll p := by
  unfold FS.remove at h
  split at h
  · exact (Option.some_inj.mp h).symm
  · exact absurd h (by simp)

/-- Fields of `handleClearOldLogs` other than the message and the pending
flag are unchanged. -/
theorem handleClearOldLogs_frame (m : Model) (fs : FS) (now : Int) :
    (m.handleClearOldLogs fs now).screen = m.screen ∧
    (m.handleClearOldLogs fs now).cursor = m.cursor ∧
    (m.handleClearOldLogs fs now).logFiles = m.logFiles ∧
    (m.handleClearOldLogs fs now).confirmingDelete = m.confirmingDelete ∧
    (m.handleClearOldLogs fs now).retentionDays = m.retentionDays ∧
    (m.handleClearOldLogs fs now).globalProjects = m.globalProjects ∧
    (m.handleClearOldLogs fs now).deleteFileIndex = m.deleteFileIndex ∧
    (m.handleClearOldLogs fs now).selectedProject = m.selectedProject := by
  unfold Model.handleClearOldLogs
  dsimp only
  split <;> simp

/-- Fields of `handleDeleteLog` other than the message, the pending flag and
the recorded index are unchanged. -/
theorem handleDeleteLog_frame (m : Model) :
    m.handleDeleteLog.screen = m.screen ∧
    m.handleDeleteLog.cursor = m.cursor ∧
    m.handleDeleteLog.logFiles = m.logFiles ∧
    m.handleDeleteLog.confirmingClear = m.confirmingClear ∧
    m.handleDeleteLog.retentionDays = m.retentionDays ∧
    m.handleDeleteLog.globalProjects = m.globalProjects ∧
    m.handleDeleteLog.selectedProject = m.selectedProject := by
  unfold Model.handleDeleteLog
  split <;> simp

/-- `viewLogContent` never touches the confirmation flags, the lists, the
delete index, the selected project or the retention setting. -/
theorem viewLogContent_frame (m : Model) (fs : FS) (parse : String → Option LogEntry) :
    (m.viewLogContent fs parse).logFiles = m.logFiles ∧
    (m.viewLogContent fs parse).confirmingDelete = m.confirmingDelete ∧
    (m.viewLogContent fs parse).confirmingClear = m.confirmingClear ∧
    (m.viewLogContent fs parse).retentionDays = m.retentionDays ∧
    (m.viewLogContent fs parse).globalProjects = m.globalProjects ∧
    (m.viewLogContent fs parse).deleteFileIndex = m.deleteFileIndex ∧
    (m.viewLogContent fs parse).selectedProject = m.selectedProject ∧
    (m.viewLogContent fs parse).projectPath = m.projectPath ∧
    (m.viewLogContent fs parse).homeDir = m.homeDir ∧
    (m.viewLogContent fs parse).hasLanguage = m.hasLanguage := by
  unfold Model.viewLogContent
  dsimp only
  split <;> simp

theorem handleViewLog_frame (m : Model) (fs : FS) (parse : String → Option LogEntry) :
    (m.handleViewLog fs parse).logFiles = m.logFiles ∧
    (m.handleViewLog fs parse).confirmingDelete = m.confirmingDelete ∧
    (m.handleViewLog fs parse).confirmingClear = m.confirmingClear ∧
    (m.handleViewLog fs parse).retentionDays = m.retentionDays ∧
    (m.handleViewLog fs parse).globalProjects = m.globalProjects ∧
    (m.handleViewLog fs parse).deleteFileIndex = m.deleteFileIndex ∧
    (m.handleViewLog fs parse).selectedProject = m.selectedProject := by
  unfold Model.handleViewLog
  split
  · have h := viewLogContent_frame m fs parse
    tauto
  · simp

/-- `handleEnter` never touches the confirmation flags or the retention
setting, and on every branch the cursor is 0 or unchanged. -/
theorem handleEnter_frame (m : Model) (fs : FS) :
    (m.handleEnter fs).confirmingDelete = m.confirmingDelete ∧
    (m.handleEnter fs).confirmingClear = m.confirmingClear ∧
    (m.handleEnter fs).retentionDays = m.retentionDays ∧
    ((m.handleEnter fs).cursor = 0 ∨ m.handleEnter fs = m) := by
  unfold Model.handleEnter
  rcases m with ⟨sc, pp, hd, hl, lf, cur, msg, cd, cc, dfi, lc, gp, sp, rd⟩
  cases sc <;> simp <;> split_ifs <;> simp <;> omega

theorem installEnter_frame (m : Model) (fs : FS) :
    (m.installEnter fs).confirmingDelete = m.confirmingDelete ∧
    (m.installEnter fs).confirmingClear = m.confirmingClear ∧
    (m.installEnter fs).retentionDays = m.retentionDays ∧
    (m.installEnter fs).screen = .main ∧
    (m.installEnter fs).cursor = 0 := by
  unfold Model.installEnter
  split <;> simp

/-- `confirmDelete` clears its own flag and leaves the other flag, the
screen, the projects list and the retention setting alone. -/
theorem confirmDelete_frame (m : Model) (fs : FS) :
    (m.confirmDelete fs).1.confirmingDelete = false ∧
    (m.confirmDelete fs).1.confirmingClear = m.confirmingClear ∧
    (m.confirmDelete fs).1.screen = m.screen ∧
    (m.confirmDelete fs).1.retentionDays = m.retentionDays ∧
    (m.confirmDelete fs).1.globalProjects = m.globalProjects ∧
    (m.confirmDelete fs).1.selectedProject = m.selectedProject := by
  unfold Model.confirmDelete
  split
  · dsimp only
    split <;> simp
  · simp

theorem confirmClearOldLogs_frame (m : Model) (fs : FS) (now : Int) :
    (m.confirmClearOldLogs fs now).1.confirmingClear = false ∧
    (m.confirmClearOldLogs fs now).1.confirmingDelete = m.confirmingDelete ∧
    (m.confirmClearOldLogs fs now).1.screen = m.screen ∧
    (m.confirmClearOldLogs fs now).1.retentionDays = m.retentionDays ∧
    (m.confirmClearOldLogs fs now).1.globalProjects = m.globalProjects ∧
    (m.confirmClearOldLogs fs now).1.selectedProject = m.selectedProject := by
  unfold Model.confirmClearOldLogs
  dsimp only
  simp

/-- The cursor clamp of `confirmDelete` (part_001 lines 391-393): it never
grows the cursor, and it lands within the list or — when the refreshed list
is empty — leaves the cursor where it was. -/
theorem clamp_spec (lf : List String) (c : Nat) :
    (if c ≥ lf.length ∧ lf.length > 0 then lf.length - 1 else c) ≤ c ∧
    ((if c ≥ lf.length ∧ lf.length > 0 then lf.length - 1 else c) + 1 ≤ lf.length ∨
      (lf = [] ∧ (if c ≥ lf.length ∧ lf.length > 0 then lf.length - 1 else c) = c)) := by
  split <;> rename_i h
  · exact ⟨by omega, Or.inl (by omega)⟩
  · refine ⟨le_refl c, ?_⟩
    rcases Nat.eq_zero_or_pos lf.length with hz | hp
    · exact Or.inr ⟨List.eq_nil_of_length_eq_zero hz, rfl⟩
    · exact Or.inl (by omega)

/-- After `confirmDelete`, either the model part is untouched apart from the
message and the flag, or the cursor has been clamped against the refreshed
list — except that an empty refreshed list is not clamped against. -/
theorem confirmDelete_cursor (m : Model) (fs : FS) :
    ((m.confirmDelete fs).1.cursor = m.cursor ∧
      (m.confirmDelete fs).1.logFiles = m.logFiles) ∨
    ((m.confirmDelete fs).1.cursor ≤ m.cursor ∧
      ((m.confirmDelete fs).1.cursor + 1 ≤ (m.confirmDelete fs).1.logFiles.length ∨
        ((m.confirmDelete fs).1.logFiles = [] ∧
          (m.confirmDelete fs).1.cursor = m.cursor))) := by
  unfold Model.confirmDelete
  split
  · dsimp only
    split
    · simp
    · exact Or.inr (clamp_spec _ m.cursor)
  · simp

/-- The clamp of `confirmClearOldLogs` (part_001 lines 246-250): the cursor
never grows and is either within the refreshed list or zero. -/
theorem confirmClearOldLogs_cursor (m : Model) (fs : FS) (now : Int) :
    (m.confirmClearOldLogs fs now).1.cursor ≤ m.cursor ∧
    ((m.confirmClearOldLogs fs now).1.cursor + 1 ≤
        (m.confirmClearOldLogs fs now).1.logFiles.length ∨
      (m.confirmClearOldLogs fs now).1.cursor = 0) := by
  unfold Model.confirmClearOldLogs
  dsimp only
  refine ⟨?_, ?_⟩ <;> split_ifs <;> omega

/-! ### The inductive invariant

Preserved by every key event: the confirmation flags are mutually
exclusive, a pending confirmation only ever exists on the LogList screen,
and the retention threshold stays within `[1, 365]`. -/

def Inv (m : Model) : Prop :=
  ¬ (m.confirmingDelete = true ∧ m.confirmingClear = true) ∧
  ((m.confirmingDelete = true ∨ m.confirmingClear = true) → m.screen = .logs) ∧
  1 ≤ m.retentionDays ∧ m.retentionDays ≤ 365

theorem inv_NewModel (fs : FS) (wd homeDir : String) (hasLang : Bool) :
    Inv (NewModel fs wd homeDir hasLang) := by
  simp [Inv, NewModel]

theorem inv_of_unconfirmed {m m2 : Model}
    (hcd : m2.confirmingDelete = m.confirmingDelete)
    (hcc : m2.confirmingClear = m.confirmingClear)
    (hrd : m2.retentionDays = m.retentionDays)
    (hcdF : m.confirmingDelete = false) (hccF : m.confirmingClear = false)
    (h : Inv m) : Inv m2 := by
  obtain ⟨-, -, h3, h4⟩ := h
  refine ⟨?_, ?_, ?_, ?_⟩ <;> simp [hcd, hcc, hrd, hcdF, hccF, h3, h4]

theorem inv_of_cleared {m m2 : Model} (hcd : m2.confirmingDelete = false)
    (hcc : m2.confirmingClear = false) (hrd : m2.retentionDays = m.retentionDays)
    (h : Inv m) : Inv m2 := by
  obtain ⟨-, -, h3, h4⟩ := h
  refine ⟨?_, ?_, ?_, ?_⟩ <;> simp [hcd, hcc, hrd, h3, h4]

theorem inv_of_pending {m m2 : Model} (hsc : m2.screen = Screen.logs)
    (hother : m2.confirmingDelete = false ∨ m2.confirmingClear = false)
    (hrd : m2.retentionDays = m.retentionDays) (h : Inv m) : Inv m2 := by
  obtain ⟨-, -, h3, h4⟩ := h
  refine ⟨?_, fun _ => hsc, ?_, ?_⟩
  · rcases hother with h5 | h5 <;> simp [h5]
  · omega
  · omega

theorem inv_applyKey (parse : String → Option LogEntry) (now : Int) (fs : FS)
    {m : Model} (a : KeyAction) (h : Inv m) : Inv (applyKey parse now fs m a).1 := by
  cases a
  case quit =>
    exact h
  case up =>
    dsimp only [applyKey]
    split
    · rename_i hg
      exact inv_of_unconfirmed rfl rfl rfl (by simpa using hg.1) (by simpa using hg.2) h
    · exact h
  case down =>
    dsimp only [applyKey]
    split
    · rename_i hg
      exact inv_of_unconfirmed rfl rfl rfl (by simpa using hg.1) (by simpa using hg.2) h
    · exact h
  case enter =>
    dsimp only [applyKey]
    split
    · rename_i hg
      split
      · obtain ⟨hcd, hcc, hrd, -, -⟩ := installEnter_frame m fs
        exact inv_of_unconfirmed hcd hcc hrd (by simpa using hg.1) (by simpa using hg.2) h
      · obtain ⟨hcd, hcc, hrd, -⟩ := handleEnter_frame m fs
        exact inv_of_unconfirmed hcd hcc hrd (by simpa using hg.1) (by simpa using hg.2) h
    · exact h
  case view =>
    dsimp only [applyKey]
    split
    · rename_i hg
      obtain ⟨-, hcd, hcc, hrd, -⟩ := handleViewLog_frame m fs parse
      exact inv_of_unconfirmed hcd hcc hrd (by simpa using hg.2.2.1)
        (by simpa using hg.2.2.2) h
    · exact h
  case del =>
    dsimp only [applyKey]
    split
    · rename_i hg
      obtain ⟨hsc, -, -, hcc, hrd, -⟩ := handleDeleteLog_frame m
      exact inv_of_pending (hsc.trans hg.1) (Or.inr (hcc.trans (by simpa using hg.2.2.2)))
        hrd h
    · exact h
  case clearOld =>
    dsimp only [applyKey]
    split
    · rename_i hg
      obtain ⟨hsc, -, -, hcd, hrd, -⟩ := handleClearOldLogs_frame m fs now
      exact inv_of_pending (hsc.trans hg.1) (Or.inl (hcd.trans (by simpa using hg.2.2.1)))
        hrd h
    · exact h
  case confirm =>
    dsimp only [applyKey]
    split
    · rename_i hcd
      obtain ⟨hcd2, hcc2, -, hrd, -⟩ := confirmDelete_frame m fs
      have hccF : m.confirmingClear = false := by
        rcases Bool.eq_false_or_eq_true m.confirmingClear with h5 | h5
        · exact absurd ⟨by simpa using hcd, h5⟩ h.1
        · exact h5
      exact inv_of_cleared hcd2 (hcc2.trans hccF) hrd h
    · split
      · obtain ⟨hcc2, hcd2, -, hrd, -⟩ := confirmClearOldLogs_frame m fs now
        rename_i hcdF _
        exact inv_of_cleared (hcd2.trans (by simpa using hcdF)) hcc2 hrd h
      · exact h
  case inc =>
    dsimp only [applyKey]
    have h3 := h.2.2.1
    have h4 := h.2.2.2
    split
    · rename_i hg
      split
      · refine ⟨?_, ?_, ?_, ?_⟩ <;>
          simp [show m.confirmingDelete = false by simpa using hg.2.1,
                show m.confirmingClear = false by simpa using hg.2.2] <;> omega
      · exact h
    · exact h
  case dec =>
    dsimp only [applyKey]
    have h3 := h.2.2.1
    have h4 := h.2.2.2
    split
    · rename_i hg
      split
      · refine ⟨?_, ?_, ?_, ?_⟩ <;>
          simp [show m.confirmingDelete = false by simpa using hg.2.1,
                show m.confirmingClear = false by simpa using hg.2.2] <;> omega
      · exact h
    · exact h
  case esc =>
    dsimp only [applyKey]
    split
    · exact inv_of_cleared (m := m) rfl rfl rfl h
    · exact inv_of_cleared (m := m) rfl rfl rfl h
  case other =>
    dsimp only [applyKey]
    split
    · exact inv_of_cleared (m := m) rfl rfl rfl h
    · rename_i hg
      rw [not_or] at hg
      exact inv_of_unconfirmed (m := m) rfl rfl rfl (by simpa using hg.1)
        (by simpa using hg.2) h

theorem inv_update (parse : String → Option LogEntry) (now : Int) (fs : FS)
    {m : Model} (key : String) (h : Inv m) : Inv (update parse now fs m key).1 :=
  inv_applyKey parse now fs (decodeKey key) h

theorem reachable_inv {parse : String → Option LogEntry} {m : Model} {fs : FS}
    (h : Reachable parse m fs) : Inv m := by
  induction h with
  | init fs wd homeDir hasLang => exact inv_NewModel fs wd homeDir hasLang
  | step key now _ ih => exact inv_update _ now _ key ih

/-! ### The cursor bound -/

/-- The cursor respects the spec's bound. -/
def cursorOK (m : Model) : Prop := m.cursor ≤ specMaxCursor m

theorem specMaxCursor_congr {m m2 : Model} (hsc : m2.screen = m.screen)
    (hlf : m2.logFiles = m.logFiles) (hgp : m2.globalProjects = m.globalProjects) :
    specMaxCursor m2 = specMaxCursor m := by
  unfold specMaxCursor
  rw [hsc, hlf, hgp]

theorem cursorOK_of_le {m m2 : Model} (hsc : m2.screen = m.screen)
    (hlf : m2.logFiles = m.logFiles) (hgp : m2.globalProjects = m.globalProjects)
    (hc : m2.cursor ≤ m.cursor) (h : cursorOK m) : cursorOK m2 := by
  unfold cursorOK at *
  rw [specMaxCursor_congr hsc hlf hgp]
  omega

theorem cursorOK_of_zero {m : Model} (hc : m.cursor = 0) : cursorOK m := by
  unfold cursorOK
  omega

/-- The `down` key moves the cursor to at most the spec's bound: the code's
`getMaxCursor` is `-1` exactly when the spec's bound is `0` with the list
empty, and the two agree otherwise. -/
theorem cursorOK_down {m : Model} (h : cursorOK m) :
    (if (m.cursor : Int) < m.getMaxCursor then m.cursor + 1 else m.cursor) ≤
      specMaxCursor m := by
  unfold cursorOK at h
  cases hs : m.screen <;>
    simp only [Model.getMaxCursor, specMaxCursor, hs] at h ⊢ <;>
    split <;> omega

theorem cursorOK_after_clamp {m m2 : Model} (hsc : m2.screen = m.screen)
    (hgp : m2.globalProjects = m.globalProjects) (hle : m2.cursor ≤ m.cursor)
    (hin : m2.cursor + 1 ≤ m2.logFiles.length) (h : cursorOK m) : cursorOK m2 := by
  unfold cursorOK specMaxCursor at *
  cases hs : m.screen <;> simp only [hsc, hgp, hs] at h ⊢ <;> omega

theorem viewLogContent_cursor (m : Model) (fs : FS)
    (parse : String → Option LogEntry) :
    (m.viewLogContent fs parse).cursor = 0 ∨
      ((m.viewLogContent fs parse).cursor = m.cursor ∧
        (m.viewLogContent fs parse).screen = m.screen) := by
  unfold Model.viewLogContent
  dsimp only
  split <;> simp

theorem handleViewLog_cursor (m : Model) (fs : FS)
    (parse : String → Option LogEntry) :
    (m.handleViewLog fs parse).cursor = 0 ∨
      ((m.handleViewLog fs parse).cursor = m.cursor ∧
        (m.handleViewLog fs parse).screen = m.screen) := by
  unfold Model.handleViewLog
  split
  · exact viewLogContent_cursor m fs parse
  · right
    exact ⟨rfl, rfl⟩

theorem handleEnter_cursor (m : Model) (fs : FS) :
    (m.handleEnter fs).cursor = 0 ∨ m.handleEnter fs = m := by
  exact (handleEnter_frame m fs).2.2.2

/-- One key event preserves the cursor bound, except that confirming a
pending single-file delete whose refreshed list is empty leaves the cursor
where it was (`confirmDelete` clamps only against a non-empty list). -/
theorem cursorOK_applyKey (parse : String → Option LogEntry) (now : Int)
    (fs : FS) {m : Model} (a : KeyAction) (h : cursorOK m) :
    cursorOK (applyKey parse now fs m a).1 ∨
      (a = .confirm ∧ m.confirmingDelete = true ∧
        (applyKey parse now fs m a).1.logFiles = [] ∧
        (applyKey parse now fs m a).1.cursor = m.cursor) := by
  cases a
  case quit =>
    exact Or.inl h
  case up =>
    dsimp only [applyKey]
    split
    · left
      refine cursorOK_of_le (m := m) rfl rfl rfl ?_ h
      dsimp only
      split <;> omega
    · exact Or.inl h
  case down =>
    dsimp only [applyKey]
    split
    · left
      have hd := cursorOK_down (m := m) h
      unfold cursorOK
      exact le_trans hd (le_of_eq (specMaxCursor_congr (m := m) rfl rfl rfl).symm)
    · exact Or.inl h
  case enter =>
    dsimp only [applyKey]
    split
    · split
      · exact Or.inl (cursorOK_of_zero (installEnter_frame m fs).2.2.2.2)
      · rcases handleEnter_cursor m fs with hz | heq
        · exact Or.inl (cursorOK_of_zero hz)
        · rw [heq]
          exact Or.inl h
    · exact Or.inl h
  case view =>
    dsimp only [applyKey]
    split
    · obtain ⟨hlf, -, -, -, hgp, -⟩ := handleViewLog_frame m fs parse
      rcases handleViewLog_cursor m fs parse with hz | ⟨hc, hsc⟩
      · exact Or.inl (cursorOK_of_zero hz)
      · exact Or.inl (cursorOK_of_le hsc hlf hgp (le_of_eq hc) h)
    · exact Or.inl h
  case del =>
    dsimp only [applyKey]
    split
    · obtain ⟨hsc, hc, hlf, -, -, hgp, -⟩ := handleDeleteLog_frame m
      exact Or.inl (cursorOK_of_le hsc hlf hgp (le_of_eq hc) h)
    · exact Or.inl h
  case clearOld =>
    dsimp only [applyKey]
    split
    · obtain ⟨hsc, hc, hlf, -, -, hgp, -⟩ := handleClearOldLogs_frame m fs now
      exact Or.inl (cursorOK_of_le hsc hlf hgp (le_of_eq hc) h)
    · exact Or.inl h
  case confirm =>
    dsimp only [applyKey]
    split
    · rename_i hcd
      obtain ⟨-, -, hsc, -, hgp, -⟩ := confirmDelete_frame m fs
      rcases confirmDelete_cursor m fs with ⟨hc, hlf⟩ | ⟨hle, hin | ⟨hnil, hc⟩⟩
      · exact Or.inl (cursorOK_of_le hsc hlf hgp (le_of_eq hc) h)
      · exact Or.inl (cursorOK_after_clamp hsc hgp hle hin h)
      · exact Or.inr ⟨rfl, by simpa using hcd, hnil, hc⟩
    · split
      · obtain ⟨-, -, hsc, -, hgp, -⟩ := confirmClearOldLogs_frame m fs now
        obtain ⟨hle, hin | hz⟩ := confirmClearOldLogs_cursor m fs now
        · exact Or.inl (cursorOK_after_clamp hsc hgp hle hin h)
        · exact Or.inl (cursorOK_of_zero hz)
      · exact Or.inl h
  case inc =>
    dsimp only [applyKey]
    split
    · split
      · exact Or.inl (cursorOK_of_le (m := m) rfl rfl rfl (le_refl _) h)
      · exact Or.inl h
    · exact Or.inl h
  case dec =>
    dsimp only [applyKey]
    split
    · split
      · exact Or.inl (cursorOK_of_le (m := m) rfl rfl rfl (le_refl _) h)
      · exact Or.inl h
    · exact Or.inl h
  case esc =>
    dsimp only [applyKey]
    split
    · exact Or.inl (cursorOK_of_le (m := m) rfl rfl rfl (le_refl _) h)
    · exact Or.inl (cursorOK_of_zero rfl)
  case other =>
    dsimp only [applyKey]
    split
    · exact Or.inl (cursorOK_of_le (m := m) rfl rfl rfl (le_refl _) h)
    · exact Or.inl (cursorOK_of_le (m := m) rfl rfl rfl (le_refl _) h)

/-! ### Concrete data for witnesses and counterexamples -/

/-- A parse function under which no line parses as a JSON object; the
concrete runs below only read non-JSON content. -/
def pnone : String → Option LogEntry := fun _ => none

/-- A filesystem with one global project `P` holding two log files under
`/h/logdog/P/`, and no local log files under the working directory `/w`. -/
def fsGlobal : FS :=
  { files := [("/h/logdog/P/a.json", { mtime := 0, lines := [] }),
              ("/h/logdog/P/b.json", { mtime := 0, lines := [] })],
    globalDirs := ["P"] }

/-- Navigation: Main cursor to 2 (global view), enter, select project `P`,
move to the second file, prompt deletion, confirm it. -/
def traceGlobalDelete : List (String × Int) :=
  [("down", 0), ("down", 0), ("enter", 0), ("enter", 0), ("down", 0),
   ("d", 0), ("y", 0)]

/-- Same navigation but deleting the first file without moving the cursor. -/
def traceGlobalDeleteFirst : List (String × Int) :=
  [("down", 0), ("down", 0), ("enter", 0), ("enter", 0), ("d", 0), ("y", 0)]

/-- A state on the LogList screen with a pending delete confirmation. -/
def mConfirm : Model :=
  { screen := .logs, projectPath := "/w", homeDir := "/h", hasLanguage := true,
    logFiles := ["/w/logdog/logs/a.json", "/w/logdog/logs/b.json"], cursor := 1,
    message := "", confirmingDelete := true, confirmingClear := false,
    deleteFileIndex := 1, logContent := "", globalProjects := [],
    selectedProject := "", retentionDays := 7 }

/-! ### C9 -/

/-- C9: in every state reachable from the initial state by any sequence of
key events, `confirmingDelete` and `confirmingClear` are never
simultaneously true. -/
theorem C9_confirmation_exclusive {parse : String → Option LogEntry}
    {m : Model} {fs : FS} (h : Reachable parse m fs) :
    ¬ (m.confirmingDelete = true ∧ m.confirmingClear = true) :=
  (reachable_inv h).1

theorem C9_witness :
    ¬ ((NewModel fsGlobal "/w" "/h" true).confirmingDelete = true ∧
       (NewModel fsGlobal "/w" "/h" true).confirmingClear = true) :=
  C9_confirmation_exclusive (@Reachable.init pnone fsGlobal "/w" "/h" true)

/-! ### C5 -/

/-- A clock reading and a filesystem for the retention example: `p1` was
modified one day ago, `p2` ten days ago, `p3` thirty days ago, and `p4`
does not exist (its stat call fails). -/
def nowC5 : Int := 1000000000

def fsC5 : FS :=
  { files := [("p1", { mtime := nowC5 - 86400, lines := [] }),
              ("p2", { mtime := nowC5 - 10 * 86400, lines := [] }),
              ("p3", { mtime := nowC5 - 30 * 86400, lines := [] })],
    globalDirs := [] }

/-- C5: the selection loop of `handleClearOldLogs` picks exactly the listed
files whose stat call succeeds with a modification time strictly before
`now` minus `retentionDays` days (a failed stat never selects a file); on
files aged 1, 10 and 30 days with a 7-day retention it selects exactly the
10- and 30-day-old files. -/
theorem C5_retention_filter (fs : FS) (now : Int) (retention : Nat)
    (files : List String) (p : String) :
    (p ∈ oldLogsIn fs (cutoffDate now retention) files ↔
      p ∈ files ∧ ∃ info, fs.statFile p = some info ∧
        info.mtime < now - 86400 * retention) ∧
    oldLogsIn fsC5 (cutoffDate nowC5 7) ["p1", "p2", "p3", "p4"] = ["p2", "p3"] := by
  constructor
  · unfold oldLogsIn
    rw [List.mem_filter]
    constructor
    · rintro ⟨hm, hf⟩
      refine ⟨hm, ?_⟩
      cases hst : fs.statFile p with
      | none =>
        rw [hst] at hf
        simp at hf
      | some info =>
        rw [hst] at hf
        simp only [decide_eq_true_eq] at hf
        exact ⟨info, rfl, by simpa [cutoffDate] using hf⟩
    · rintro ⟨hm, info, hst, hlt⟩
      refine ⟨hm, ?_⟩
      rw [hst]
      simpa [cutoffDate] using hlt
  · decide

/-! ### C7 -/

/-- The well-formed record of the round-trip example, as `formatLogEntry`
receives it from `json.Unmarshal` (the data value `1` already rendered the
way `fmt` renders `float64(1)`). -/
def entryC7 : LogEntry :=
  { timestamp := "2024-01-15T14:30:45Z", level := "INFO", message := "hi",
    data := [("x", "1")] }

/-- C7: on the record
`{"timestamp":"2024-01-15T14:30:45Z","level":"INFO","message":"hi","data":{"x":1}}`
the rendered line contains "Jan 15 14:30:45", "[INFO]", "hi" and "\x7bx=1\x7d"
in that relative order. -/
theorem C7_format_round_trip :
    ∃ g0 g1 g2 g3 g4,
      formatLogEntry entryC7 =
        g0 ++ "Jan 15 14:30:45" ++ g1 ++ "[INFO]" ++ g2 ++ "hi" ++ g3 ++
          ("\x7b" ++ "x=1" ++ "\x7d") ++ g4 :=
  ⟨"", " ", " ", " ", "", by decide⟩

/-! ### C8 and C10: the `v` key -/

theorem formatLogLines_append (parse : String → Option LogEntry)
    (l1 l2 : List String) :
    formatLogLines parse (l1 ++ l2) =
      formatLogLines parse l1 ++ formatLogLines parse l2 := by
  induction l1 with
  | nil =>
    show formatLogLines parse l2 = "" ++ formatLogLines parse l2
    cases hfl : formatLogLines parse l2
    rfl
  | cons a l ih =>
    show _ ++ formatLogLines parse (l ++ l2) = _ ++ formatLogLines parse l ++ _
    rw [ih, String.append_assoc]

/-- The full effect of the `v` key on the LogList screen with a valid
selection whose file opens: transition to LogView with the formatted
content, touching nothing else. -/
theorem view_step (parse : String → Option LogEntry) (now : Int) (fs : FS)
    (m : Model) (info : FileData)
    (hsc : m.screen = Screen.logs) (hlen : 0 < m.logFiles.length)
    (hcd : m.confirmingDelete = false) (hcc : m.confirmingClear = false)
    (hcur : m.cursor < m.logFiles.length)
    (hstat : fs.statFile (m.logFiles.getD m.cursor "") = some info) :
    (update parse now fs m "v").1 =
      { m with screen := Screen.logView,
               logContent := formatLogLines parse info.lines, cursor := 0 } ∧
    (update parse now fs m "v").2 = fs := by
  unfold update
  rw [show decodeKey "v" = KeyAction.view from by decide]
  dsimp only [applyKey]
  rw [if_pos ⟨hsc, hlen, by simp [hcd], by simp [hcc]⟩]
  unfold Model.handleViewLog
  rw [if_pos hcur]
  unfold Model.viewLogContent
  dsimp only
  rw [hstat]
  exact ⟨rfl, rfl⟩

/-- C8: a non-blank line that fails to parse as a JSON object is emitted
into the formatted content as the raw trimmed line, unchanged, and the `v`
transition to LogView proceeds normally (no error path is taken). -/
theorem C8_malformed_passthrough (parse : String → Option LogEntry) :
    (∀ (pre post : List String) (line : String), goTrimSpace line ≠ "" →
      parse (goTrimSpace line) = none →
      formatLogLines parse (pre ++ line :: post) =
        formatLogLines parse pre ++ (goTrimSpace line ++ "\n") ++
          formatLogLines parse post) ∧
    (∀ (now : Int) (fs : FS) (m : Model) (info : FileData),
      m.screen = Screen.logs → 0 < m.logFiles.length →
      m.confirmingDelete = false → m.confirmingClear = false →
      m.cursor < m.logFiles.length →
      fs.statFile (m.logFiles.getD m.cursor "") = some info →
      (update parse now fs m "v").1.screen = Screen.logView ∧
      (update parse now fs m "v").1.logContent = formatLogLines parse info.lines) := by
  constructor
  · intro pre post line hne hp
    rw [formatLogLines_append]
    show _ ++ ((let l := goTrimSpace line
      if l = "" then ""
      else match parse l with
        | some e => formatLogEntry e ++ "\n"
        | none => l ++ "\n") ++ formatLogLines parse post) = _
    dsimp only
    rw [if_neg hne, hp, ← String.append_assoc]
  · intro now fs m info hsc hlen hcd hcc hcur hstat
    obtain ⟨h1, -⟩ := view_step parse now fs m info hsc hlen hcd hcc hcur hstat
    rw [h1]
    exact ⟨rfl, rfl⟩

theorem C8_witness :
    goTrimSpace "not json" ≠ "" ∧
    formatLogLines pnone ([] ++ "not json" :: []) =
      formatLogLines pnone [] ++ (goTrimSpace "not json" ++ "\n") ++
        formatLogLines pnone [] :=
  ⟨by decide, (C8_malformed_passthrough pnone).1 [] [] "not json" (by decide) rfl⟩

/-- A local project with two log files; `b.json` is the one the cursor of
`mView` selects, `a.json` the one its `deleteFileIndex` records. -/
def fsView : FS :=
  { files := [("/w/logdog/logs/a.json", { mtime := 0, lines := ["content of a"] }),
              ("/w/logdog/logs/b.json", { mtime := 0, lines := ["content of b"] })],
    globalDirs := [] }

def mView : Model :=
  { screen := .logs, projectPath := "/w", homeDir := "/h", hasLanguage := true,
    logFiles := ["/w/logdog/logs/a.json", "/w/logdog/logs/b.json"], cursor := 1,
    message := "", confirmingDelete := false, confirmingClear := false,
    deleteFileIndex := 0, logContent := "", globalProjects := [],
    selectedProject := "", retentionDays := 7 }

theorem renderLogViewFilename_eq (m : Model) :
    m.renderLogViewFilename =
      if m.deleteFileIndex < m.logFiles.length then
        baseName (m.logFiles.getD m.deleteFileIndex "") else "" := by
  unfold Model.renderLogViewFilename
  split <;> rename_i h
  · rw [List.getD_eq_get m.logFiles "" h]
  · rfl

/-- C10: viewing a log (`v` on LogList) changes only the screen, the log
content and the cursor — in particular `deleteFileIndex` is untouched — so
the LogView header names `logFiles[deleteFileIndex]`, the target of the most
recent delete prompt, which can differ from the file whose content is shown
(witnessed by `mView`: the header says `a.json` while `b.json` is shown). -/
theorem C10_view_frame (parse : String → Option LogEntry) :
    (∀ (now : Int) (fs : FS) (m : Model) (info : FileData),
      m.screen = Screen.logs → 0 < m.logFiles.length →
      m.confirmingDelete = false → m.confirmingClear = false →
      m.cursor < m.logFiles.length →
      fs.statFile (m.logFiles.getD m.cursor "") = some info →
      (update parse now fs m "v").2 = fs ∧
      (update parse now fs m "v").1.deleteFileIndex = m.deleteFileIndex ∧
      (update parse now fs m "v").1.logFiles = m.logFiles ∧
      (update parse now fs m "v").1.message = m.message ∧
      (update parse now fs m "v").1.selectedProject = m.selectedProject ∧
      (update parse now fs m "v").1.globalProjects = m.globalProjects ∧
      (update parse now fs m "v").1.retentionDays = m.retentionDays ∧
      (update parse now fs m "v").1.confirmingDelete = m.confirmingDelete ∧
      (update parse now fs m "v").1.confirmingClear = m.confirmingClear ∧
      (update parse now fs m "v").1.screen = Screen.logView ∧
      (update parse now fs m "v").1.cursor = 0 ∧
      (update parse now fs m "v").1.logContent = formatLogLines parse info.lines ∧
      (update parse now fs m "v").1.renderLogViewFilename =
        (if m.deleteFileIndex < m.logFiles.length then
          baseName (m.logFiles.getD m.deleteFileIndex "") else "")) ∧
    ((update pnone 0 fsView mView "v").1.renderLogViewHeader =
        "📋 Viewing: " ++ "a.json" ∧
      (update pnone 0 fsView mView "v").1.logContent =
        formatLogLines pnone ["content of b"] ∧
      baseName (mView.logFiles.getD mView.cursor "") = "b.json") := by
  constructor
  · intro now fs m info hsc hlen hcd hcc hcur hstat
    obtain ⟨h1, h2⟩ := view_step parse now fs m info hsc hlen hcd hcc hcur hstat
    rw [h1, h2]
    refine ⟨rfl, rfl, rfl, rfl, rfl, rfl, rfl, rfl, rfl, rfl, rfl, rfl, ?_⟩
    rw [renderLogViewFilename_eq]
  · refine ⟨?_, ?_, by decide⟩
    · obtain ⟨h1, -⟩ := view_step pnone 0 fsView mView ⟨0, ["content of b"]⟩
        rfl (by decide) rfl rfl (by decide) (by decide)
      rw [h1]
      unfold Model.renderLogViewHeader
      rw [renderLogViewFilename_eq]
      decide
    · obtain ⟨h1, -⟩ := view_step pnone 0 fsView mView ⟨0, ["content of b"]⟩
        rfl (by decide) rfl rfl (by decide) (by decide)
      rw [h1]

theorem C10_witness :
    (update pnone 0 fsView mView "v").1.deleteFileIndex = mView.deleteFileIndex ∧
    (update pnone 0 fsView mView "v").1.renderLogViewFilename =
      (if mView.deleteFileIndex < mView.logFiles.length then
        baseName (mView.logFiles.getD mView.deleteFileIndex "") else "") := by
  obtain ⟨-, hd, -, -, -, -, -, -, -, -, -, -, hr⟩ :=
    (C10_view_frame pnone).1 0 fsView mView ⟨0, ["content of b"]⟩
      rfl (by decide) rfl rfl (by decide) (by decide)
  exact ⟨hd, hr⟩

/-! ### C6: the retention threshold -/

theorem decodeKey_inc {key : String} :
    decodeKey key = KeyAction.inc ↔ (key = "+" ∨ key = "=") := by
  constructor
  · intro h
    unfold decodeKey at h
    by_cases c1 : (key = "q" ∨ key = "ctrl+c")
    · rw [if_pos c1] at h
      cases h
    rw [if_neg c1] at h
    by_cases c2 : (key = "up" ∨ key = "k")
    · rw [if_pos c2] at h
      cases h
    rw [if_neg c2] at h
    by_cases c3 : (key = "down" ∨ key = "j")
    · rw [if_pos c3] at h
      cases h
    rw [if_neg c3] at h
    by_cases c4 : key = "enter"
    · rw [if_pos c4] at h
      cases h
    rw [if_neg c4] at h
    by_cases c5 : key = "v"
    · rw [if_pos c5] at h
      cases h
    rw [if_neg c5] at h
    by_cases c6 : key = "d"
    · rw [if_pos c6] at h
      cases h
    rw [if_neg c6] at h
    by_cases c7 : key = "c"
    · rw [if_pos c7] at h
      cases h
    rw [if_neg c7] at h
    by_cases c8 : key = "y"
    · rw [if_pos c8] at h
      cases h
    rw [if_neg c8] at h
    by_cases c9 : (key = "+" ∨ key = "=")
    · exact c9
    rw [if_neg c9] at h
    by_cases c10 : (key = "-" ∨ key = "_")
    · rw [if_pos c10] at h
      cases h
    rw [if_neg c10] at h
    by_cases c11 : key = "esc"
    · rw [if_pos c11] at h
      cases h
    rw [if_neg c11] at h
    cases h
  · rintro (rfl | rfl) <;> decide

theorem decodeKey_dec {key : String} :
    decodeKey key = KeyAction.dec ↔ (key = "-" ∨ key = "_") := by
  constructor
  · intro h
    unfold decodeKey at h
    by_cases c1 : (key = "q" ∨ key = "ctrl+c")
    · rw [if_pos c1] at h
      cases h
    rw [if_neg c1] at h
    by_cases c2 : (key = "up" ∨ key = "k")
    · rw [if_pos c2] at h
      cases h
    rw [if_neg c2] at h
    by_cases c3 : (key = "down" ∨ key = "j")
    · rw [if_pos c3] at h
      cases h
    rw [if_neg c3] at h
    by_cases c4 : key = "enter"
    · rw [if_pos c4] at h
      cases h
    rw [if_neg c4] at h
    by_cases c5 : key = "v"
    · rw [if_pos c5] at h
      cases h
    rw [if_neg c5] at h
    by_cases c6 : key = "d"
    · rw [if_pos c6] at h
      cases h
    rw [if_neg c6] at h
    by_cases c7 : key = "c"
    · rw [if_pos c7] at h
      cases h
    rw [if_neg c7] at h
    by_cases c8 : key = "y"
    · rw [if_pos c8] at h
      cases h
    rw [if_neg c8] at h
    by_cases c9 : (key = "+" ∨ key = "=")
    · rw [if_pos c9] at h
      cases h
    rw [if_neg c9] at h
    by_cases c10 : (key = "-" ∨ key = "_")
    · exact c10
    rw [if_neg c10] at h
    by_cases c11 : key = "esc"
    · rw [if_pos c11] at h
      cases h
    rw [if_neg c11] at h
    cases h
  · rintro (rfl | rfl) <;> decide

theorem decodeKey_confirm {key : String} :
    decodeKey key = KeyAction.confirm ↔ key = "y" := by
  constructor
  · intro h
    unfold decodeKey at h
    by_cases c1 : (key = "q" ∨ key = "ctrl+c")
    · rw [if_pos c1] at h
      cases h
    rw [if_neg c1] at h
    by_cases c2 : (key = "up" ∨ key = "k")
    · rw [if_pos c2] at h
      cases h
    rw [if_neg c2] at h
    by_cases c3 : (key = "down" ∨ key = "j")
    · rw [if_pos c3] at h
      cases h
    rw [if_neg c3] at h
    by_cases c4 : key = "enter"
    · rw [if_pos c4] at h
      cases h
    rw [if_neg c4] at h
    by_cases c5 : key = "v"
    · rw [if_pos c5] at h
      cases h
    rw [if_neg c5] at h
    by_cases c6 : key = "d"
    · rw [if_pos c6] at h
      cases h
    rw [if_neg c6] at h
    by_cases c7 : key = "c"
    · rw [if_pos c7] at h
      cases h
    rw [if_neg c7] at h
    by_cases c8 : key = "y"
    · exact c8
    rw [if_neg c8] at h
    by_cases c9 : (key = "+" ∨ key = "=")
    · rw [if_pos c9] at h
      cases h
    rw [if_neg c9] at h
    by_cases c10 : (key = "-" ∨ key = "_")
    · rw [if_pos c10] at h
      cases h
    rw [if_neg c10] at h
    by_cases c11 : key = "esc"
    · rw [if_pos c11] at h
      cases h
    rw [if_neg c11] at h
    cases h
  · rintro rfl
    decide

theorem decodeKey_esc {key : String} :
    decodeKey key = KeyAction.esc ↔ key = "esc" := by
  constructor
  · intro h
    unfold decodeKey at h
    by_cases c1 : (key = "q" ∨ key = "ctrl+c")
    · rw [if_pos c1] at h
      cases h
    rw [if_neg c1] at h
    by_cases c2 : (key = "up" ∨ key = "k")
    · rw [if_pos c2] at h
      cases h
    rw [if_neg c2] at h
    by_cases c3 : (key = "down" ∨ key = "j")
    · rw [if_pos c3] at h
      cases h
    rw [if_neg c3] at h
    by_cases c4 : key = "enter"
    · rw [if_pos c4] at h
      cases h
    rw [if_neg c4] at h
    by_cases c5 : key = "v"
    · rw [if_pos c5] at h
      cases h
    rw [if_neg c5] at h
    by_cases c6 : key = "d"
    · rw [if_pos c6] at h
      cases h
    rw [if_neg c6] at h
    by_cases c7 : key = "c"
    · rw [if_pos c7] at h
      cases h
    rw [if_neg c7] at h
    by_cases c8 : key = "y"
    · rw [if_pos c8] at h
      cases h
    rw [if_neg c8] at h
    by_cases c9 : (key = "+" ∨ key = "=")
    · rw [if_pos c9] at h
      cases h
    rw [if_neg c9] at h
    by_cases c10 : (key = "-" ∨ key = "_")
    · rw [if_pos c10] at h
      cases h
    rw [if_neg c10] at h
    by_cases c11 : key = "esc"
    · exact c11
    rw [if_neg c11] at h
    cases h
  · rintro rfl
    decide

/-- No handler outside the two Settings keys touches the retention setting. -/
theorem retention_applyKey (parse : String → Option LogEntry) (now : Int)
    (fs : FS) (m : Model) (a : KeyAction)
    (hni : a ≠ KeyAction.inc) (hnd : a ≠ KeyAction.dec) :
    (applyKey parse now fs m a).1.retentionDays = m.retentionDays := by
  cases a
  case quit => rfl
  case up =>
    dsimp only [applyKey]
    split <;> rfl
  case down =>
    dsimp only [applyKey]
    split <;> rfl
  case enter =>
    dsimp only [applyKey]
    split
    · split
      · exact (installEnter_frame m fs).2.2.1
      · exact (handleEnter_frame m fs).2.2.1
    · rfl
  case view =>
    dsimp only [applyKey]
    split
    · exact (handleViewLog_frame m fs parse).2.2.2.1
    · rfl
  case del =>
    dsimp only [applyKey]
    split
    · exact (handleDeleteLog_frame m).2.2.2.2.1
    · rfl
  case clearOld =>
    dsimp only [applyKey]
    split
    · exact (handleClearOldLogs_frame m fs now).2.2.2.2.1
    · rfl
  case confirm =>
    dsimp only [applyKey]
    split
    · exact (confirmDelete_frame m fs).2.2.2.1
    · split
      · exact (confirmClearOldLogs_frame m fs now).2.2.2.1
      · rfl
  case inc => exact absurd rfl hni
  case dec => exact absurd rfl hnd
  case esc =>
    dsimp only [applyKey]
    split <;> rfl
  case other =>
    dsimp only [applyKey]
    split <;> rfl

theorem retention_inc (parse : String → Option LogEntry) (now : Int)
    (fs : FS) (m : Model) :
    (applyKey parse now fs m KeyAction.inc).1.retentionDays =
      if m.screen = Screen.settings ∧ m.confirmingDelete = false ∧
          m.confirmingClear = false ∧ m.retentionDays < 365 then
        m.retentionDays + 1
      else m.retentionDays := by
  dsimp only [applyKey]
  split <;> rename_i h1
  · split <;> rename_i h2
    · rw [if_pos ⟨h1.1, by simpa using h1.2.1, by simpa using h1.2.2, h2⟩]
    · rw [if_neg (fun hc => h2 hc.2.2.2)]
  · rw [if_neg (fun hc => h1 ⟨hc.1, by simp [hc.2.1], by simp [hc.2.2.1]⟩)]

theorem retention_dec (parse : String → Option LogEntry) (now : Int)
    (fs : FS) (m : Model) :
    (applyKey parse now fs m KeyAction.dec).1.retentionDays =
      if m.screen = Screen.settings ∧ m.confirmingDelete = false ∧
          m.confirmingClear = false ∧ 1 < m.retentionDays then
        m.retentionDays - 1
      else m.retentionDays := by
  dsimp only [applyKey]
  split <;> rename_i h1
  · split <;> rename_i h2
    · rw [if_pos ⟨h1.1, by simpa using h1.2.1, by simpa using h1.2.2, h2⟩]
    · rw [if_neg (fun hc => h2 hc.2.2.2)]
  · rw [if_neg (fun hc => h1 ⟨hc.1, by simp [hc.2.1], by simp [hc.2.2.1]⟩)]

/-- C6: the retention threshold starts at 7, stays within `[1, 365]` across
every event sequence, and on reachable states it changes exactly as the
claim says: `+`/`=` on Settings increment it only below 365, `-`/`_` on
Settings decrement it only above 1, and no other transition changes it. -/
theorem C6_retention (parse : String → Option LogEntry) :
    (∀ (fs : FS) (wd homeDir : String) (hasLang : Bool),
      (NewModel fs wd homeDir hasLang).retentionDays = 7) ∧
    (∀ (m : Model) (fs : FS), Reachable parse m fs →
      1 ≤ m.retentionDays ∧ m.retentionDays ≤ 365) ∧
    (∀ (m : Model) (fs : FS), Reachable parse m fs →
      ∀ (key : String) (now : Int),
      (update parse now fs m key).1.retentionDays =
        if (key = "+" ∨ key = "=") ∧ m.screen = Screen.settings ∧
            m.retentionDays < 365 then
          m.retentionDays + 1
        else if (key = "-" ∨ key = "_") ∧ m.screen = Screen.settings ∧
            1 < m.retentionDays then
          m.retentionDays - 1
        else m.retentionDays) := by
  refine ⟨fun fs wd homeDir hasLang => rfl, ?_, ?_⟩
  · intro m fs h
    exact (reachable_inv h).2.2
  · intro m fs h key now
    have hinv := reachable_inv h
    have hflags : m.screen = Screen.settings →
        m.confirmingDelete = false ∧ m.confirmingClear = false := by
      intro hs
      have hno : ¬ (m.confirmingDelete = true ∨ m.confirmingClear = true) := by
        intro hor
        have hlogs := hinv.2.1 hor
        rw [hs] at hlogs
        exact Screen.noConfusion hlogs
      rw [not_or] at hno
      exact ⟨by simpa using hno.1, by simpa using hno.2⟩
    unfold update
    by_cases hi : decodeKey key = KeyAction.inc
    · rw [hi, retention_inc]
      have hk := decodeKey_inc.mp hi
      have hnotdec : ¬ ((key = "-" ∨ key = "_") ∧ m.screen = Screen.settings ∧
          1 < m.retentionDays) := by
        rintro ⟨hk2, -, -⟩
        rcases hk with rfl | rfl <;> rcases hk2 with h2 | h2 <;>
          exact absurd h2 (by decide)
      rw [if_neg hnotdec]
      by_cases hs : m.screen = Screen.settings
      · obtain ⟨hcd, hcc⟩ := hflags hs
        by_cases hr : m.retentionDays < 365
        · rw [if_pos ⟨hs, hcd, hcc, hr⟩, if_pos ⟨hk, hs, hr⟩]
        · rw [if_neg (fun hc => hr hc.2.2.2), if_neg (fun hc => hr hc.2.2)]
      · rw [if_neg (fun hc => hs hc.1), if_neg (fun hc => hs hc.2.1)]
    · by_cases hd : decodeKey key = KeyAction.dec
      · rw [hd, retention_dec]
        have hk := decodeKey_dec.mp hd
        have hnotinc : ¬ ((key = "+" ∨ key = "=") ∧ m.screen = Screen.settings ∧
            m.retentionDays < 365) := by
          rintro ⟨hk2, -, -⟩
          rcases hk with rfl | rfl <;> rcases hk2 with h2 | h2 <;>
            exact absurd h2 (by decide)
        rw [if_neg hnotinc]
        by_cases hs : m.screen = Screen.settings
        · obtain ⟨hcd, hcc⟩ := hflags hs
          by_cases hr : 1 < m.retentionDays
          · rw [if_pos ⟨hs, hcd, hcc, hr⟩, if_pos ⟨hk, hs, hr⟩]
          · rw [if_neg (fun hc => hr hc.2.2.2), if_neg (fun hc => hr hc.2.2)]
        · rw [if_neg (fun hc => hs hc.1), if_neg (fun hc => hs hc.2.1)]
      · rw [retention_applyKey parse now fs m (decodeKey key) hi hd,
          if_neg (fun hc => hi (decodeKey_inc.mpr hc.1)),
          if_neg (fun hc => hd (decodeKey_dec.mpr hc.1))]

theorem C6_witness :
    (NewModel fsGlobal "/w" "/h" true).retentionDays = 7 ∧
    (1 ≤ (NewModel fsGlobal "/w" "/h" true).retentionDays ∧
      (NewModel fsGlobal "/w" "/h" true).retentionDays ≤ 365) ∧
    (update pnone 0 fsGlobal (NewModel fsGlobal "/w" "/h" true) "+").1.retentionDays =
      (NewModel fsGlobal "/w" "/h" true).retentionDays := by
  refine ⟨(C6_retention pnone).1 fsGlobal "/w" "/h" true,
    (C6_retention pnone).2.1 _ _ (Reachable.init fsGlobal "/w" "/h" true), ?_⟩
  have h3 := (C6_retention pnone).2.2 _ _
    (Reachable.init fsGlobal "/w" "/h" true) "+" 0
  rw [h3]
  decide

/-! ### C2: keys while a confirmation is pending -/

/-- C2 (counterexample): with a delete confirmation pending, the `up` key —
a non-`y` key named by the claim — leaves `confirmingDelete` set instead of
clearing it (the `up`/`down` handlers are guarded no-ops while confirming). -/
theorem C2_counterexample :
    mConfirm.confirmingDelete = true ∧
    (update pnone 0 fsGlobal mConfirm "up").1.confirmingDelete = true := by
  exact ⟨rfl, by decide⟩

/-- C2 (amended): while a confirmation is pending, any non-`y` key leaves
the filesystem untouched and the screen, cursor and log list unchanged;
`esc` and keys without a dedicated handler clear both confirmation flags,
while the keys with dedicated handlers (navigation, `v`/`d`/`c`, `+`/`-`,
quit) leave the flags exactly as they were. -/
theorem C2_cancel (parse : String → Option LogEntry) (now : Int) (fs : FS)
    (m : Model) (key : String)
    (hconf : m.confirmingDelete = true ∨ m.confirmingClear = true)
    (hy : key ≠ "y") :
    (update parse now fs m key).2 = fs ∧
    (update parse now fs m key).1.screen = m.screen ∧
    (update parse now fs m key).1.cursor = m.cursor ∧
    (update parse now fs m key).1.logFiles = m.logFiles ∧
    ((decodeKey key = KeyAction.esc ∨ decodeKey key = KeyAction.other) →
      (update parse now fs m key).1.confirmingDelete = false ∧
      (update parse now fs m key).1.confirmingClear = false) ∧
    (¬ (decodeKey key = KeyAction.esc ∨ decodeKey key = KeyAction.other) →
      (update parse now fs m key).1.confirmingDelete = m.confirmingDelete ∧
      (update parse now fs m key).1.confirmingClear = m.confirmingClear) := by
  have hnc : decodeKey key ≠ KeyAction.confirm :=
    fun hc => hy (decodeKey_confirm.mp hc)
  have hguard2 : ¬ (¬ m.confirmingDelete = true ∧ ¬ m.confirmingClear = true) := by
    rintro ⟨hg1, hg2⟩
    rcases hconf with h | h
    exacts [hg1 h, hg2 h]
  have hor : (m.confirmingDelete = true ∨ m.confirmingClear = true) := hconf
  unfold update
  cases hk : decodeKey key
  case confirm => exact absurd hk hnc
  case up =>
    dsimp only [applyKey]
    rw [if_neg hguard2]
    exact ⟨rfl, rfl, rfl, rfl, fun hc => absurd hc (by decide),
      fun _ => ⟨rfl, rfl⟩⟩
  case down =>
    dsimp only [applyKey]
    rw [if_neg hguard2]
    exact ⟨rfl, rfl, rfl, rfl, fun hc => absurd hc (by decide),
      fun _ => ⟨rfl, rfl⟩⟩
  case enter =>
    dsimp only [applyKey]
    rw [if_neg hguard2]
    exact ⟨rfl, rfl, rfl, rfl, fun hc => absurd hc (by decide),
      fun _ => ⟨rfl, rfl⟩⟩
  case quit =>
    exact ⟨rfl, rfl, rfl, rfl, fun hc => absurd hc (by decide),
      fun _ => ⟨rfl, rfl⟩⟩
  case view =>
    dsimp only [applyKey]
    rw [if_neg (fun hg => hguard2 ⟨hg.2.2.1, hg.2.2.2⟩)]
    exact ⟨rfl, rfl, rfl, rfl, fun hc => absurd hc (by decide),
      fun _ => ⟨rfl, rfl⟩⟩
  case del =>
    dsimp only [applyKey]
    rw [if_neg (fun hg => hguard2 ⟨hg.2.2.1, hg.2.2.2⟩)]
    exact ⟨rfl, rfl, rfl, rfl, fun hc => absurd hc (by decide),
      fun _ => ⟨rfl, rfl⟩⟩
  case clearOld =>
    dsimp only [applyKey]
    rw [if_neg (fun hg => hguard2 ⟨hg.2.2.1, hg.2.2.2⟩)]
    exact ⟨rfl, rfl, rfl, rfl, fun hc => absurd hc (by decide),
      fun _ => ⟨rfl, rfl⟩⟩
  case inc =>
    dsimp only [applyKey]
    rw [if_neg (fun hg => hguard2 ⟨hg.2.1, hg.2.2⟩)]
    exact ⟨rfl, rfl, rfl, rfl, fun hc => absurd hc (by decide),
      fun _ => ⟨rfl, rfl⟩⟩
  case dec =>
    dsimp only [applyKey]
    rw [if_neg (fun hg => hguard2 ⟨hg.2.1, hg.2.2⟩)]
    exact ⟨rfl, rfl, rfl, rfl, fun hc => absurd hc (by decide),
      fun _ => ⟨rfl, rfl⟩⟩
  case esc =>
    dsimp only [applyKey]
    rw [if_pos hor]
    exact ⟨rfl, rfl, rfl, rfl, fun _ => ⟨rfl, rfl⟩,
      fun hno => absurd (Or.inl rfl) hno⟩
  case other =>
    dsimp only [applyKey]
    rw [if_pos hor]
    exact ⟨rfl, rfl, rfl, rfl, fun _ => ⟨rfl, rfl⟩,
      fun hno => absurd (Or.inr rfl) hno⟩

theorem C2_witness :
    (mConfirm.confirmingDelete = true ∨ mConfirm.confirmingClear = true) ∧
    (update pnone 0 fsGlobal mConfirm "up").2 = fsGlobal ∧
    (update pnone 0 fsGlobal mConfirm "up").1.cursor = mConfirm.cursor := by
  refine ⟨Or.inl rfl, ?_, ?_⟩
  · exact (C2_cancel pnone 0 fsGlobal mConfirm "up" (Or.inl rfl) (by decide)).1
  · exact (C2_cancel pnone 0 fsGlobal mConfirm "up" (Or.inl rfl) (by decide)).2.2.1

/-! ### C4: the esc key -/

/-- C4 (counterexample): on the LogList screen (not Main) with a delete
confirmation pending, esc does not return to Main — it stays on LogList and
only cancels the confirmation. -/
theorem C4_counterexample :
    mConfirm.screen = Screen.logs ∧ Screen.logs ≠ Screen.main ∧
    mConfirm.confirmingDelete = true ∧
    (update pnone 0 fsGlobal mConfirm "esc").1.screen = Screen.logs := by
  exact ⟨rfl, by decide, rfl, by decide⟩

/-- C4 (amended): esc resets to Main (cursor 0, message, content and
selected project cleared, both flags false) only when no confirmation is
pending; with a confirmation pending it clears the flags and the message
and leaves the screen, cursor, content and selected project unchanged. -/
theorem C4_esc (parse : String → Option LogEntry) (now : Int) (fs : FS)
    (m : Model) :
    (m.confirmingDelete = false → m.confirmingClear = false →
      (update parse now fs m "esc").1.screen = Screen.main ∧
      (update parse now fs m "esc").1.cursor = 0 ∧
      (update parse now fs m "esc").1.message = "" ∧
      (update parse now fs m "esc").1.logContent = "" ∧
      (update parse now fs m "esc").1.selectedProject = "" ∧
      (update parse now fs m "esc").1.confirmingDelete = false ∧
      (update parse now fs m "esc").1.confirmingClear = false) ∧
    ((m.confirmingDelete = true ∨ m.confirmingClear = true) →
      (update parse now fs m "esc").1.confirmingDelete = false ∧
      (update parse now fs m "esc").1.confirmingClear = false ∧
      (update parse now fs m "esc").1.message = "" ∧
      (update parse now fs m "esc").1.screen = m.screen ∧
      (update parse now fs m "esc").1.cursor = m.cursor ∧
      (update parse now fs m "esc").1.logContent = m.logContent ∧
      (update parse now fs m "esc").1.selectedProject = m.selectedProject) := by
  have hdk : decodeKey "esc" = KeyAction.esc := by decide
  unfold update
  rw [hdk]
  dsimp only [applyKey]
  constructor
  · intro hcd hcc
    rw [if_neg (fun hc => by
      rcases hc with h | h
      · rw [hcd] at h
        cases h
      · rw [hcc] at h
        cases h)]
    exact ⟨rfl, rfl, rfl, rfl, rfl, rfl, rfl⟩
  · intro hconf
    rw [if_pos hconf]
    exact ⟨rfl, rfl, rfl, rfl, rfl, rfl, rfl⟩

theorem C4_witness :
    (update pnone 0 fsGlobal (NewModel fsGlobal "/w" "/h" true) "esc").1.screen =
      Screen.main ∧
    (update pnone 0 fsGlobal mConfirm "esc").1.confirmingDelete = false ∧
    (update pnone 0 fsGlobal mConfirm "esc").1.screen = mConfirm.screen :=
  ⟨((C4_esc pnone 0 fsGlobal (NewModel fsGlobal "/w" "/h" true)).1 rfl rfl).1,
   ((C4_esc pnone 0 fsGlobal mConfirm).2 (Or.inl rfl)).1,
   ((C4_esc pnone 0 fsGlobal mConfirm).2 (Or.inl rfl)).2.2.2.1⟩

/-! ### C3: refresh after delete and clear -/

theorem find?_filter_ne_none (l : List (String × FileData)) (p : String) :
    List.find? (fun e => e.1 = p) (List.filter (fun e => ¬ e.1 = p) l) = none := by
  rw [List.find?_eq_none]
  intro x hx
  simpa using (List.mem_filter.mp hx).2

theorem statFile_removeAll (fs : FS) (p : String) :
    (fs.removeAll p).statFile p = none := by
  unfold FS.statFile FS.removeAll
  dsimp only
  rw [find?_filter_ne_none]
  rfl

/-- C3 (counterexample): with no detected language, deleting a file of a
selected global project removes it from disk but the displayed list is not
refreshed at all — the deleted path is still listed. -/
theorem C3_counterexample :
    (runKeys pnone (NewModel fsGlobal "/w" "/h" false, fsGlobal)
        traceGlobalDeleteFirst).1.logFiles =
      ["/h/logdog/P/a.json", "/h/logdog/P/b.json"] ∧
    (runKeys pnone (NewModel fsGlobal "/w" "/h" false, fsGlobal)
        traceGlobalDeleteFirst).2.statFile "/h/logdog/P/a.json" = none ∧
    (runKeys pnone (NewModel fsGlobal "/w" "/h" false, fsGlobal)
        traceGlobalDeleteFirst).1.selectedProject = "P" := by
  exact ⟨by decide, by decide, by decide⟩

/-- C3 (amended): after a confirmed delete, when a language was detected at
startup the list is re-queried — but always from the local project's log
directory, never from the selected global project — so the refreshed list
never contains the deleted path (which is gone from disk) and the cursor is
clamped only against a non-empty refreshed list; when no language was
detected the list is not refreshed at all. The bulk clear refreshes the
same way. -/
theorem C3_refresh (parse : String → Option LogEntry) (now : Int) (fs : FS)
    (m : Model) :
    (m.confirmingDelete = true → ∀ hidx : m.deleteFileIndex < m.logFiles.length,
      (fs.statFile (m.logFiles.getD m.deleteFileIndex "")).isSome = true →
      m.hasLanguage = true →
      (update parse now fs m "y").1.logFiles =
        getLogPaths (update parse now fs m "y").2 m.projectPath ∧
      m.logFiles.getD m.deleteFileIndex "" ∉ (update parse now fs m "y").1.logFiles ∧
      ((update parse now fs m "y").2).statFile
        (m.logFiles.getD m.deleteFileIndex "") = none ∧
      (update parse now fs m "y").1.cursor =
        (if m.cursor ≥ (update parse now fs m "y").1.logFiles.length ∧
            (update parse now fs m "y").1.logFiles.length > 0 then
          (update parse now fs m "y").1.logFiles.length - 1
        else m.cursor)) ∧
    (m.confirmingDelete = true → m.deleteFileIndex < m.logFiles.length →
      (fs.statFile (m.logFiles.getD m.deleteFileIndex "")).isSome = true →
      m.hasLanguage = false →
      (update parse now fs m "y").1.logFiles = m.logFiles) ∧
    (m.confirmingDelete = false → m.confirmingClear = true →
      m.hasLanguage = true →
      (update parse now fs m "y").1.logFiles =
        getLogPaths (update parse now fs m "y").2 m.projectPath) := by
  have hdk : decodeKey "y" = KeyAction.confirm := by decide
  refine ⟨?_, ?_, ?_⟩
  · intro hcd hidx hstat hlang
    unfold update
    rw [hdk]
    dsimp only [applyKey]
    rw [if_pos hcd]
    unfold Model.confirmDelete
    rw [dif_pos hidx]
    dsimp only
    have hget : m.logFiles.getD m.deleteFileIndex "" =
        m.logFiles.get ⟨m.deleteFileIndex, hidx⟩ :=
      List.getD_eq_get m.logFiles "" hidx
    have hrem : fs.remove (m.logFiles.get ⟨m.deleteFileIndex, hidx⟩) =
        some (fs.removeAll (m.logFiles.get ⟨m.deleteFileIndex, hidx⟩)) := by
      unfold FS.remove
      rw [if_pos (by rw [← hget]; exact hstat)]
    rw [hrem]
    dsimp only
    rw [if_pos hlang]
    refine ⟨rfl, ?_, ?_, rfl⟩
    · rw [hget]
      intro hmem
      exact not_mem_removeAll _ _ (mem_getLogPaths hmem)
    · rw [hget]
      exact statFile_removeAll fs _
  · intro hcd hidx hstat hlang
    unfold update
    rw [hdk]
    dsimp only [applyKey]
    rw [if_pos hcd]
    unfold Model.confirmDelete
    rw [dif_pos hidx]
    dsimp only
    have hget : m.logFiles.getD m.deleteFileIndex "" =
        m.logFiles.get ⟨m.deleteFileIndex, hidx⟩ :=
      List.getD_eq_get m.logFiles "" hidx
    have hrem : fs.remove (m.logFiles.get ⟨m.deleteFileIndex, hidx⟩) =
        some (fs.removeAll (m.logFiles.get ⟨m.deleteFileIndex, hidx⟩)) := by
      unfold FS.remove
      rw [if_pos (by rw [← hget]; exact hstat)]
    rw [hrem]
    dsimp only
    rw [if_neg (by rw [hlang]; exact Bool.false_ne_true)]
  · intro hcd hcc hlang
    unfold update
    rw [hdk]
    dsimp only [applyKey]
    rw [if_neg (by rw [hcd]; exact Bool.false_ne_true), if_pos hcc]
    unfold Model.confirmClearOldLogs
    dsimp only
    rw [if_pos hlang]

theorem C3_witness :
    mConfirm.confirmingDelete = true ∧ mConfirm.hasLanguage = true ∧
    (update pnone 0 fsView mConfirm "y").1.logFiles =
      getLogPaths (update pnone 0 fsView mConfirm "y").2 mConfirm.projectPath ∧
    mConfirm.logFiles.getD mConfirm.deleteFileIndex "" ∉
      (update pnone 0 fsView mConfirm "y").1.logFiles := by
  obtain ⟨h1, h2, -, -⟩ :=
    (C3_refresh pnone 0 fsView mConfirm).1 rfl (by decide) (by decide) rfl
  exact ⟨rfl, rfl, h1, h2⟩

/-! ### C1: the cursor bound -/

/-- C1 (counterexample): a reachable state on the LogList screen with an
empty list and cursor 1, exceeding the spec's bound of 0. A global
project's file is deleted at cursor 1; `confirmDelete` re-queries the
(empty) local log directory and skips the clamp because the new list is
empty. -/
theorem C1_counterexample :
    Reachable pnone
      (runKeys pnone (NewModel fsGlobal "/w" "/h" true, fsGlobal)
        traceGlobalDelete).1
      (runKeys pnone (NewModel fsGlobal "/w" "/h" true, fsGlobal)
        traceGlobalDelete).2 ∧
    (runKeys pnone (NewModel fsGlobal "/w" "/h" true, fsGlobal)
        traceGlobalDelete).1.screen = Screen.logs ∧
    (runKeys pnone (NewModel fsGlobal "/w" "/h" true, fsGlobal)
        traceGlobalDelete).1.logFiles = [] ∧
    (runKeys pnone (NewModel fsGlobal "/w" "/h" true, fsGlobal)
        traceGlobalDelete).1.cursor = 1 ∧
    specMaxCursor (runKeys pnone (NewModel fsGlobal "/w" "/h" true, fsGlobal)
        traceGlobalDelete).1 = 0 := by
  refine ⟨?_, by decide, by decide, by decide, by decide⟩
  exact Reachable.step "y" 0 (Reachable.step "d" 0 (Reachable.step "down" 0
    (Reachable.step "enter" 0 (Reachable.step "enter" 0 (Reachable.step "down" 0
      (Reachable.step "down" 0 (@Reachable.init pnone fsGlobal "/w" "/h" true)))))))

/-- C1 (amended): the initial cursor is within the spec's bound, and every
key event preserves the bound except confirming a pending single-file
delete whose refreshed list is empty: there the cursor is left unchanged
(`confirmDelete` clamps only against a non-empty refreshed list). -/
theorem C1_cursor_bound (parse : String → Option LogEntry) :
    (∀ (fs : FS) (wd homeDir : String) (hasLang : Bool),
      (NewModel fs wd homeDir hasLang).cursor ≤
        specMaxCursor (NewModel fs wd homeDir hasLang)) ∧
    (∀ (now : Int) (fs : FS) (m : Model) (key : String),
      m.cursor ≤ specMaxCursor m →
      ((update parse now fs m key).1.cursor ≤
          specMaxCursor (update parse now fs m key).1 ∨
        (decodeKey key = KeyAction.confirm ∧ m.confirmingDelete = true ∧
          (update parse now fs m key).1.logFiles = [] ∧
          (update parse now fs m key).1.cursor = m.cursor))) := by
  constructor
  · intro fs wd homeDir hasLang
    exact Nat.zero_le _
  · intro now fs m key h
    exact cursorOK_applyKey parse now fs (decodeKey key) h

theorem C1_witness :
    (NewModel fsGlobal "/w" "/h" true).cursor ≤
      specMaxCursor (NewModel fsGlobal "/w" "/h" true) ∧
    ((update pnone 0 fsGlobal mConfirm "up").1.cursor ≤
        specMaxCursor (update pnone 0 fsGlobal mConfirm "up").1 ∨
      (decodeKey "up" = KeyAction.confirm ∧ mConfirm.confirmingDelete = true ∧
        (update pnone 0 fsGlobal mConfirm "up").1.logFiles = [] ∧
        (update pnone 0 fsGlobal mConfirm "up").1.cursor = mConfirm.cursor)) := by
  refine ⟨(C1_cursor_bound pnone).1 fsGlobal "/w" "/h" true, ?_⟩
  exact (C1_cursor_bound pnone).2 0 fsGlobal mConfirm "up" (by decide)

end Logdog
